import Mathlib

/-!
# Verification of the grainLearning SMC core (smc.py, calibrate.py)

Shallow embedding of the sequential-Monte-Carlo calibration core:

* `smc.getCovMatrix`, `smc.getLikelihood`, `smc.update`, the per-step
  `recursiveBayesian` recursion and `smc.subRun` (the ESS objective),
* the control flow of `smc.runESSLoop` (without a proposal file, the
  configuration used by the `calibrate.py` driver),
* `smc.checkParamsError` and `smc.getParamsFromTable`,
* the per-iteration filesystem behaviour of `calibrate.calibrate`.

Numeric arrays are modelled as functions `ℕ → ℚ` (etc.) with the array
dimensions carried separately as loop bounds, mirroring the numpy code,
which only ever reads indices below those bounds.  Floating point is
idealised as exact rational arithmetic; the transcendental `np.exp` is
abstracted as a parameter `expF : ℚ → ℚ` (positive on every input in the
non-degenerate regime), and `np.sqrt` as `sqrtF`.
-/

namespace GrainLearning

/-- The inputs that a `subRun` evaluation reads: observation matrix `Y`
(`obsData`, indexed step × channel), simulation tensor `S` (`yadeData`,
step × sample × channel), observation weights `w` (`obsWeights`), proposal
vector `q` (`proposal`), the covariance policy flag `scaleCovWithMax`, the
target effective sample size `essTarget` (`self.ess`), and the dimensions
`T = numSteps`, `N = numSamples`, `M = numObs`. -/
structure SMCInput where
  T : ℕ
  N : ℕ
  M : ℕ
  Y : ℕ → ℕ → ℚ
  S : ℕ → ℕ → ℕ → ℚ
  w : ℕ → ℚ
  q : ℕ → ℚ
  scaleCovWithMax : Bool
  essTarget : ℚ

/-- Model of `max(self.obsData[:, j])`: the maximum of column `j` of `Y` over the
`T` steps.  numpy takes the maximum of the (nonempty) column; seeding the
fold with `Y 0 j` repeats element 0 harmlessly. -/
def colMax (Y : ℕ → ℕ → ℚ) (T : ℕ) (j : ℕ) : ℚ :=
  ((List.range T).map (fun t => Y t j)).foldr max (Y 0 j)

/-- Embedding of `smc.getCovMatrix`: it builds a diagonal matrix; only the diagonal entries
are ever written, so the result is modelled as the diagonal vector.
`Sigma[j,j] = sigma * w[j] * max(Y[:,j])**2` when `scaleCovWithMax`, else
`sigma * w[j] * Y[caliStep,j]**2`. -/
def getCovMatrix (inp : SMCInput) (sigma : ℚ) (caliStep : ℕ) : ℕ → ℚ := fun j =>
  if inp.scaleCovWithMax then sigma * inp.w j * colMax inp.Y inp.T j ^ 2
  else sigma * inp.w j * inp.Y caliStep j ^ 2

/-- Embedding of `smc.getLikelihood`: `vecDiff = obsVec - stateVec`; `invSigma` is
`np.linalg.inv` of the diagonal matrix built by `getCovMatrix`, i.e. the
diagonal matrix of entrywise reciprocals; `power[i] = vecDiff[i] ·
invSigma · vecDiff[i]`; `likelihood[i] = exp(-0.5 * power[i])`, finally
normalised by its sum over the `N` samples.  (`self.__obsMatrix` is the
identity, so `stateVec = S[caliStep]`.) -/
def getLikelihood (expF : ℚ → ℚ) (inp : SMCInput) (sigma : ℚ) (caliStep : ℕ) :
    ℕ → ℚ :=
  let Sigma := getCovMatrix inp sigma caliStep
  let vecDiff := fun i j => inp.Y caliStep j - inp.S caliStep i j
  let power := fun i =>
    ∑ j ∈ Finset.range inp.M, vecDiff i j * (Sigma j)⁻¹ * vecDiff i j
  let raw := fun i => expF (-(1 / 2) * power i)
  fun i => raw i / ∑ k ∈ Finset.range inp.N, raw k

/-- Embedding of `smc.update`: at `caliStep = 0`, `posterior = likelihood / proposal`;
at later steps, `posterior = posterior[:, caliStep-1] * likelihood`; in
both cases normalised by the sum over the `N` samples. -/
def update (inp : SMCInput) (caliStep : ℕ) (prevPost lik : ℕ → ℚ) : ℕ → ℚ :=
  let raw := fun i => if caliStep = 0 then lik i / inp.q i else prevPost i * lik i
  fun i => raw i / ∑ k ∈ Finset.range inp.N, raw k

/-- The posterior column computed at step `t` by the loop
`for i in range(numSteps): ... = self.recursiveBayesian(i)` inside
`smc.subRun`: each step's `update` reads the previous step's posterior
column (`self.posterior[:, caliStep-1]`).  The step-0 read of the
previous column never happens (branch `caliStep == 0`), so the
initial column is irrelevant; it is the zero array `self.posterior`
is initialised to. -/
def posteriorCol (expF : ℚ → ℚ) (inp : SMCInput) (sigma : ℚ) : ℕ → ℕ → ℚ
  | 0 => update inp 0 (fun _ => 0) (getLikelihood expF inp sigma 0)
  | t + 1 =>
      update inp (t + 1) (posteriorCol expF inp sigma t)
        (getLikelihood expF inp sigma (t + 1))

/-- Embedding of `smc.getEffectiveSampleSize()[-1]`: `sum(posterior ** 2)` sums the
rows of the `N × T` matrix, giving per-column sums of squares; `nEff`
is the elementwise reciprocal, divided by `numSamples`; `[-1]` selects
the last step's entry. -/
def essOf (N : ℕ) (post : ℕ → ℚ) : ℚ :=
  (1 / ∑ i ∈ Finset.range N, post i ^ 2) / N

/-- The value returned by `smc.subRun(sigma)`:
`self.ess - self.getEffectiveSampleSize()[-1]`. -/
def subRunVal (expF : ℚ → ℚ) (inp : SMCInput) (sigma : ℚ) : ℚ :=
  inp.essTarget - essOf inp.N (posteriorCol expF inp sigma (inp.T - 1))

/-! ## Normalisation lemmas (claims C2, C5) -/

theorem getLikelihood_pos (expF : ℚ → ℚ) (inp : SMCInput) (sigma : ℚ)
    (caliStep : ℕ) (hexp : ∀ x, 0 < expF x) (hN : 0 < inp.N) (i : ℕ) :
    0 < getLikelihood expF inp sigma caliStep i := by
  unfold getLikelihood
  refine div_pos (hexp _) (Finset.sum_pos (fun k _ => hexp _) ?_)
  exact Finset.nonempty_range_iff.mpr hN.ne'

theorem getLikelihood_sum (expF : ℚ → ℚ) (inp : SMCInput) (sigma : ℚ)
    (caliStep : ℕ) (hexp : ∀ x, 0 < expF x) (hN : 0 < inp.N) :
    ∑ i ∈ Finset.range inp.N, getLikelihood expF inp sigma caliStep i = 1 := by
  unfold getLikelihood
  rw [← Finset.sum_div]
  refine div_self (ne_of_gt (Finset.sum_pos (fun k _ => hexp _) ?_))
  exact Finset.nonempty_range_iff.mpr hN.ne'

theorem update_sum (inp : SMCInput) (caliStep : ℕ) (prevPost lik : ℕ → ℚ)
    (h : ∑ k ∈ Finset.range inp.N,
        (if caliStep = 0 then lik k / inp.q k else prevPost k * lik k) ≠ 0) :
    ∑ i ∈ Finset.range inp.N, update inp caliStep prevPost lik i = 1 := by
  unfold update
  rw [← Finset.sum_div]
  exact div_self h

theorem posteriorCol_pos (expF : ℚ → ℚ) (inp : SMCInput) (sigma : ℚ)
    (hexp : ∀ x, 0 < expF x) (hN : 0 < inp.N)
    (hq : ∀ i, i < inp.N → 0 < inp.q i) (t : ℕ) :
    ∀ i, i < inp.N → 0 < posteriorCol expF inp sigma t i := by
  induction t with
  | zero =>
      intro i hi
      unfold posteriorCol update
      simp only [if_pos rfl]
      refine div_pos (div_pos (getLikelihood_pos expF inp sigma 0 hexp hN i) (hq i hi)) ?_
      refine Finset.sum_pos (fun k hk => ?_)
        (Finset.nonempty_range_iff.mpr hN.ne')
      exact div_pos (getLikelihood_pos expF inp sigma 0 hexp hN k)
        (hq k (Finset.mem_range.mp hk))
  | succ t ih =>
      intro i hi
      unfold posteriorCol update
      simp only [Nat.succ_ne_zero, if_false]
      refine div_pos
        (mul_pos (ih i hi) (getLikelihood_pos expF inp sigma (t + 1) hexp hN i)) ?_
      refine Finset.sum_pos (fun k hk => ?_)
        (Finset.nonempty_range_iff.mpr hN.ne')
      exact mul_pos (ih k (Finset.mem_range.mp hk))
        (getLikelihood_pos expF inp sigma (t + 1) hexp hN k)

theorem posteriorCol_sum (expF : ℚ → ℚ) (inp : SMCInput) (sigma : ℚ)
    (hexp : ∀ x, 0 < expF x) (hN : 0 < inp.N)
    (hq : ∀ i, i < inp.N → 0 < inp.q i) (t : ℕ) :
    ∑ i ∈ Finset.range inp.N, posteriorCol expF inp sigma t i = 1 := by
  cases t with
  | zero =>
      refine update_sum inp 0 (fun _ => 0) (getLikelihood expF inp sigma 0)
        (ne_of_gt ?_)
      simp only [if_pos rfl]
      refine Finset.sum_pos (fun k hk => ?_)
        (Finset.nonempty_range_iff.mpr hN.ne')
      exact div_pos (getLikelihood_pos expF inp sigma 0 hexp hN k)
        (hq k (Finset.mem_range.mp hk))
  | succ t =>
      refine update_sum inp (t + 1) (posteriorCol expF inp sigma t)
        (getLikelihood expF inp sigma (t + 1)) (ne_of_gt ?_)
      simp only [Nat.succ_ne_zero, if_false]
      refine Finset.sum_pos (fun k hk => ?_)
        (Finset.nonempty_range_iff.mpr hN.ne')
      exact mul_pos
        (posteriorCol_pos expF inp sigma hexp hN hq t k (Finset.mem_range.mp hk))
        (getLikelihood_pos expF inp sigma (t + 1) hexp hN k)

/-- C2: after the per-step `getLikelihood` + `update` pair, with
non-degenerate inputs (at least one sample, strictly positive `expF`
image and strictly positive proposal weights), the likelihood column
and the posterior column at every step `t` each sum to 1 exactly. -/
theorem likelihood_posterior_columns_normalised (expF : ℚ → ℚ)
    (inp : SMCInput) (sigma : ℚ) (hexp : ∀ x, 0 < expF x) (hN : 0 < inp.N)
    (hq : ∀ i, i < inp.N → 0 < inp.q i) (t : ℕ) :
    ∑ i ∈ Finset.range inp.N, getLikelihood expF inp sigma t i = 1 ∧
    ∑ i ∈ Finset.range inp.N, posteriorCol expF inp sigma t i = 1 :=
  ⟨getLikelihood_sum expF inp sigma t hexp hN,
   posteriorCol_sum expF inp sigma hexp hN hq t⟩

/-- Concrete instance used by the C2 witness: one step, two samples,
one channel, uniform proposal. -/
def witnessInput : SMCInput :=
  { T := 1, N := 2, M := 1
    Y := fun _ _ => 3
    S := fun _ i _ => (i : ℚ)
    w := fun _ => 1
    q := fun _ => 1 / 2
    scaleCovWithMax := true
    essTarget := 1 / 5 }

/-- Witness for C2 at a concrete non-degenerate input. -/
theorem likelihood_posterior_columns_normalised_witness :
    (∀ x : ℚ, 0 < (fun _ : ℚ => (1 : ℚ)) x) ∧ 0 < witnessInput.N ∧
    (∀ i, i < witnessInput.N → 0 < witnessInput.q i) ∧
    (∑ i ∈ Finset.range witnessInput.N,
        getLikelihood (fun _ => 1) witnessInput 1 0 i = 1 ∧
      ∑ i ∈ Finset.range witnessInput.N,
        posteriorCol (fun _ => 1) witnessInput 1 0 i = 1) :=
  ⟨fun _ => one_pos, by decide, fun i _ => by norm_num [witnessInput],
   likelihood_posterior_columns_normalised (fun _ => 1) witnessInput 1
     (fun _ => one_pos) (by decide) (fun i _ => by norm_num [witnessInput]) 0⟩

/-- C5: if the proposal is uniform (`q[i] = 1/N`) and the likelihood
column sums to 1 (as every column returned by `getLikelihood` does),
then the posterior column produced by `update` at step 0 equals the
likelihood column exactly. -/
theorem update_zero (inp : SMCInput) (prevPost lik : ℕ → ℚ) :
    update inp 0 prevPost lik =
      fun i => (lik i / inp.q i) / ∑ k ∈ Finset.range inp.N, lik k / inp.q k := by
  unfold update
  simp

theorem update_uniform_proposal_identity (inp : SMCInput) (prevPost lik : ℕ → ℚ)
    (hN : 0 < inp.N)
    (hq : ∀ i, i < inp.N → inp.q i = (inp.N : ℚ)⁻¹)
    (hsum : ∑ i ∈ Finset.range inp.N, lik i = 1) :
    ∀ i, i < inp.N → update inp 0 prevPost lik i = lik i := by
  intro i hi
  rw [update_zero]
  have hNQ : ((inp.N : ℚ)) ≠ 0 := Nat.cast_ne_zero.mpr hN.ne'
  have hraw : ∀ k, k < inp.N → lik k / inp.q k = lik k * inp.N := by
    intro k hk
    rw [hq k hk, div_eq_mul_inv, inv_inv]
  show (lik i / inp.q i) / ∑ k ∈ Finset.range inp.N, lik k / inp.q k = lik i
  rw [Finset.sum_congr rfl fun k hk => hraw k (Finset.mem_range.mp hk),
    ← Finset.sum_mul, hsum, one_mul, hraw i hi, mul_div_cancel_right₀ _ hNQ]

/-- Witness for C5: uniform proposal over two samples, a likelihood
column summing to 1; the step-0 posterior reproduces it. -/
theorem update_uniform_proposal_identity_witness :
    0 < witnessInput.N ∧
    (∀ i, i < witnessInput.N → witnessInput.q i = (witnessInput.N : ℚ)⁻¹) ∧
    (∑ i ∈ Finset.range witnessInput.N, (fun _ : ℕ => (1 : ℚ) / 2) i = 1) ∧
    (∀ i, i < witnessInput.N →
      update witnessInput 0 (fun _ => 0) (fun _ : ℕ => (1 : ℚ) / 2) i =
      (fun _ : ℕ => (1 : ℚ) / 2) i) :=
  ⟨by decide, fun i _ => by norm_num [witnessInput],
   by norm_num [witnessInput, Finset.sum_range_succ],
   update_uniform_proposal_identity witnessInput (fun _ => 0) _
     (by decide) (fun i _ => by norm_num [witnessInput])
     (by norm_num [witnessInput, Finset.sum_range_succ])⟩

/-! ## The likelihood formula (claim C3) -/

/-- The likelihood of §4.5, written from the spec's words: diagonal
`Σ_t` with `Σ_t[j,j] = σ·w_j·(max_t Y[t,j])²` (max-scaled, identical for
every `t`) or `σ·w_j·Y[t,j]²` (point-scaled); residual
`r_i = Y[t,:] − S_k[t,i,:]`; unnormalised likelihood
`ℓ_i = exp(−½ · r_iᵀ Σ_t⁻¹ r_i) = exp(−½ Σ_j r_{ij}² / Σ_t[j,j])`;
the returned column is `ℓ` normalised to sum 1 over the samples. -/
def specLikelihood (expF : ℚ → ℚ) (inp : SMCInput) (sigma : ℚ) (t : ℕ) :
    ℕ → ℚ :=
  let SigmaDiag := fun j =>
    if inp.scaleCovWithMax then sigma * inp.w j * colMax inp.Y inp.T j ^ 2
    else sigma * inp.w j * inp.Y t j ^ 2
  let r := fun i j => inp.Y t j - inp.S t i j
  let ell := fun i =>
    expF (-(1 / 2) * ∑ j ∈ Finset.range inp.M, r i j ^ 2 * (SigmaDiag j)⁻¹)
  fun i => ell i / ∑ k ∈ Finset.range inp.N, ell k

/-- C3: the column returned by `getLikelihood` coincides with the spec's
formula under both covariance policies, and under the max-scaled policy
the covariance matrix is the same at every step. -/
theorem getLikelihood_matches_spec (expF : ℚ → ℚ) (inp : SMCInput)
    (sigma : ℚ) (t : ℕ) :
    getLikelihood expF inp sigma t = specLikelihood expF inp sigma t ∧
    (inp.scaleCovWithMax = true →
      ∀ t₁ t₂, getCovMatrix inp sigma t₁ = getCovMatrix inp sigma t₂) := by
  constructor
  · have key : ∀ r c : ℚ, r * c⁻¹ * r = r ^ 2 * c⁻¹ := fun r c => by ring
    funext i
    simp only [getLikelihood, specLikelihood, getCovMatrix, key]
  · intro h t₁ t₂
    funext j
    simp [getCovMatrix, h]

/-- Witness for C3 at a concrete input and concrete pair of steps. -/
theorem getLikelihood_matches_spec_witness :
    getLikelihood (fun _ => 1) witnessInput 1 0 =
      specLikelihood (fun _ => 1) witnessInput 1 0 ∧
    getCovMatrix witnessInput 1 0 = getCovMatrix witnessInput 1 5 :=
  ⟨(getLikelihood_matches_spec (fun _ => 1) witnessInput 1 0).1,
   (getLikelihood_matches_spec (fun _ => 1) witnessInput 1 0).2 rfl 0 5⟩

/-! ## Singular covariance (claim C9) -/

/-- Model of the inversion step: `np.linalg.inv` raises `LinAlgError` on a singular matrix, and a
diagonal matrix is singular iff some diagonal entry is zero.
`smc.getLikelihood` calls the inversion with no guard and no handler, so
the failure propagates out of the likelihood computation. -/
def getLikelihoodChecked (expF : ℚ → ℚ) (inp : SMCInput) (sigma : ℚ)
    (caliStep : ℕ) : Except String (ℕ → ℚ) :=
  if ∃ j ∈ Finset.range inp.M, getCovMatrix inp sigma caliStep j = 0 then
    Except.error "LinAlgError: Singular matrix"
  else Except.ok (getLikelihood expF inp sigma caliStep)

/-- C9: a zero observation weight, a zero channel maximum under the
max-scaled policy, or a zero observation value under the point-scaled
policy makes the covariance matrix singular, and the likelihood
computation at that step fails rather than returning a likelihood. -/
theorem getLikelihood_fails_on_singular_cov (expF : ℚ → ℚ) (inp : SMCInput)
    (sigma : ℚ) (t j : ℕ) (hj : j < inp.M)
    (hz : inp.w j = 0 ∨ (inp.scaleCovWithMax = true ∧ colMax inp.Y inp.T j = 0) ∨
      (inp.scaleCovWithMax = false ∧ inp.Y t j = 0)) :
    getLikelihoodChecked expF inp sigma t =
      Except.error "LinAlgError: Singular matrix" := by
  unfold getLikelihoodChecked
  have hcond : ∃ j ∈ Finset.range inp.M, getCovMatrix inp sigma t j = 0 := by
    refine ⟨j, Finset.mem_range.mpr hj, ?_⟩
    unfold getCovMatrix
    rcases hz with hw | ⟨hs, hm⟩ | ⟨hs, hy⟩
    · cases h : inp.scaleCovWithMax <;> simp [h, hw]
    · simp [hs, hm]
    · simp [hs, hy]
  rw [if_pos hcond]

/-- The input `witnessInput` with the single observation weight set to zero. -/
def singularInput : SMCInput := { witnessInput with w := fun _ => 0 }

/-- Witness for C9: with a zero weight on the only channel, the
likelihood computation errors out. -/
theorem getLikelihood_fails_on_singular_cov_witness :
    0 < singularInput.M ∧ singularInput.w 0 = 0 ∧
    getLikelihoodChecked (fun _ => 1) singularInput 1 0 =
      Except.error "LinAlgError: Singular matrix" :=
  ⟨by decide, by decide,
   getLikelihood_fails_on_singular_cov (fun _ => 1) singularInput 1 0 0
     (by decide) (Or.inl (by decide))⟩

/-! ## Parameter table reader (claim C10) -/

/-- Model of `row[-P:]` (also `f.split(sep)[-P:]`): the last `P` entries. -/
def lastColumns (P : ℕ) (row : List ℚ) : List ℚ := row.drop (row.length - P)

/-- Embedding of `smc.getParamsFromTable` on an existing table:
`np.genfromtxt(paramsFile, comments='!')[:, -numParams:]` — `rows` are
the non-comment lines already tokenised to numbers, and the last
`numParams` whitespace-separated columns of each row are kept.  Leading
columns (the sample key, and any extra ones) are dropped without being
inspected; the keys are not compared to row order or to file names (the
source marks this with a TODO). -/
def getParamsFromTable (numParams : ℕ) (rows : List (List ℚ)) :
    List (List ℚ) :=
  rows.map (lastColumns numParams)

/-- C10: on rows presented as (leading columns, last `numParams`
columns), the reader returns exactly the trailing columns; the leading
columns — however many — never influence the result. -/
theorem getParamsFromTable_ignores_leading (numParams : ℕ)
    (rows : List (List ℚ × List ℚ))
    (h : ∀ pr ∈ rows, pr.2.length = numParams) :
    getParamsFromTable numParams (rows.map fun pr => pr.1 ++ pr.2) =
      rows.map Prod.snd := by
  unfold getParamsFromTable
  rw [List.map_map]
  refine List.map_congr_left fun pr hpr => ?_
  simp only [Function.comp_apply]
  unfold lastColumns
  rw [List.length_append, h pr hpr, Nat.add_sub_cancel, List.drop_left]

/-- Witness for C10: two rows with differing numbers of leading
columns; the reader returns the trailing parameter columns of each. -/
theorem getParamsFromTable_ignores_leading_witness :
    (∀ pr ∈ [(([5] : List ℚ), ([1, 2] : List ℚ)), ([7, 8], [3, 4])],
      pr.2.length = 2) ∧
    getParamsFromTable 2
        ([(([5] : List ℚ), ([1, 2] : List ℚ)), ([7, 8], [3, 4])].map
          fun pr => pr.1 ++ pr.2) =
      [(([5] : List ℚ), ([1, 2] : List ℚ)), ([7, 8], [3, 4])].map Prod.snd :=
  ⟨by decide,
   getParamsFromTable_ignores_leading 2
     [(([5] : List ℚ), ([1, 2] : List ℚ)), ([7, 8], [3, 4])] (by decide)⟩

/-! ## Sample–file consistency check (claim C4) -/

/-- The per-file test in `smc.checkParamsError` (smc.py line 345):
`np.abs((np.float64(paramsString) - X[i]) / X[i] < 1e-10).all()`.
The comparison `< 1e-10` is evaluated before `np.abs` is applied, so
`np.abs` acts on a boolean array, where it is the identity; the
condition that must hold for every component is therefore the signed,
one-sided comparison `(decoded - sample)/sample < 1e-10` — there is no
absolute value around the relative difference. -/
def paramsMatchCode (decoded sample : List ℚ) : Prop :=
  ∀ p ∈ List.zip decoded sample, (p.1 - p.2) / p.2 < 1 / 10000000000

/-- Embedding of `smc.checkParamsError` for one simulation file: the parameter fields
are the last `numParams` underscore-separated fields of the
extension-stripped file name (modelled post-split and already decoded
to numbers); a `RuntimeError` is raised iff the test fails. -/
def checkParamsErrorRaises (numParams : ℕ) (fileFields sampleRow : List ℚ) :
    Prop :=
  ¬ paramsMatchCode (lastColumns numParams fileFields) sampleRow

/-- The check the claim describes: some component differs from the
sample by more than `1e-10` in relative magnitude. -/
def paramsMismatchSpec (decoded sample : List ℚ) : Prop :=
  ∃ p ∈ List.zip decoded sample, ¬ |(p.1 - p.2) / p.2| < 1 / 10000000000

/-- C4 (code bug): a file whose single decoded parameter is `0.5`
against the sample value `1` has relative difference `0.5`, far beyond
the tolerance, yet `checkParamsError` does not raise, because its test
is one-sided: `(0.5 - 1)/1 = -0.5 < 1e-10` passes componentwise. -/
theorem checkParamsError_one_sided :
    ¬ checkParamsErrorRaises 1 [0, 1 / 2] [1] ∧
    paramsMismatchSpec (lastColumns 1 [0, 1 / 2]) [1] := by
  have hl : lastColumns 1 [0, 1 / 2] = [(1 : ℚ) / 2] := rfl
  have habs : |((1 : ℚ) / 2 - 1) / 1| = 1 / 2 := by
    rw [show ((1 : ℚ) / 2 - 1) / 1 = -(1 / 2) by norm_num, abs_neg,
      abs_of_nonneg (by norm_num : (0 : ℚ) ≤ 1 / 2)]
  constructor
  · intro h
    refine h ?_
    intro p hp
    rw [hl] at hp
    simp only [List.zip, List.zipWith, List.mem_singleton] at hp
    subst hp
    norm_num
  · refine ⟨((1 : ℚ) / 2, 1), ?_, ?_⟩
    · rw [hl]
      simp [List.zip]
    · rw [habs]
      norm_num

/-! ## ESS controller control flow (claims C1, C6) -/

/-- The interactive reinitialisation loop in `smc.runESSLoop` (no
proposal file): `while True: ess0 = self.subRun(self.sigmaMax); if
ess0 > 0: self.sigmaMax = float(input(...)) else: break`.  `inputs` is
the stream of values the user types at the prompt; if it runs out while
the condition still holds, the process blocks on `input()` (`none`). -/
def reinitLoop (f : ℚ → ℚ) (sMax : ℚ) : List ℚ → Option ℚ
  | [] => if f sMax > 0 then none else some sMax
  | v :: rest => if f sMax > 0 then reinitLoop f v rest else some sMax

/-- Control flow of `smc.runESSLoop` when no proposal file is loaded
(the configuration every `calibrate.py` driver uses).  `f` is the pure
value of `subRun` (rationals are never NaN, so the
`while isnan(evalSigmaMin)` relaxation never fires and `sigmaMin` is
unchanged); `brent` abstracts `optimize.brentq` on a bracket.  The
initial evaluations at `sigmaMin` and `sigmaMax`, and the extra
`self.subRun(self.sigmaMin)` performed when they have the same sign,
only set transient state (`self.sigma` and the SMC arrays) that every
later `subRun` call overwrites; execution always falls through to the
reinitialisation loop and the branch below it.  The result is the
committed `sigma` (argument of the final `subRun`, left in
`self.sigma`), the updated `self.sigmaMax`, and whether the `sigmaMin`
warning was printed; `Except.error` marks the two abnormal exits
(blocking forever on `input()`, and the `raise Warning` statement). -/
def runESSLoopNoProposal (f : ℚ → ℚ) (brent : ℚ → ℚ → ℚ)
    (sMin sMax : ℚ) (inputs : List ℚ) : Except String (ℚ × ℚ × Bool) :=
  match reinitLoop f sMax inputs with
  | none => Except.error "blocked on input()"
  | some sMax2 =>
      if f sMin < 0 then
        -- print("Warning: ess(sigmaMin)>essMin; ..."); sigma = sigmaMin
        Except.ok (sMin, sMin, true)
      else if f sMax2 > 0 then
        -- raise Warning("ess(sigmaMax)<essMin; ...")
        Except.error "Warning: ess(sigmaMax)<essMin"
      else
        -- sigma = optimize.brentq(self.subRun, sigmaMin, sigmaMax, xtol=essTol)
        Except.ok (brent sMin sMax2, brent sMin sMax2, false)

/-- Counterexample to C1: with `f(σ) = 1 − σ`, `σ_min = 1/2`,
`σ_max = 3/4`, both endpoint evaluations are positive (same sign), yet
the controller does not stop at the `σ = σ_min` fallback: it falls
through to the reinitialisation prompt, accepts the new `σ_max = 2`
typed by the user, and commits the Brent root of the new bracket (here
the midpoint oracle gives `5/4 ≠ 1/2`). -/
theorem runESSLoop_sameSign_not_sigmaMin :
    (fun σ : ℚ => 1 - σ) (1 / 2) * (fun σ : ℚ => 1 - σ) (3 / 4) > 0 ∧
    runESSLoopNoProposal (fun σ => 1 - σ) (fun lo hi => (lo + hi) / 2)
        (1 / 2) (3 / 4) [2] = Except.ok (5 / 4, 5 / 4, false) ∧
    (5 / 4 : ℚ) ≠ 1 / 2 := by
  refine ⟨by norm_num, ?_, by norm_num⟩
  norm_num [runESSLoopNoProposal, reinitLoop]

/-- C1 amended: when `f(σ_min)` and `f(σ_max)` are both finite and
negative (same sign, the effective sample size already above target at
both endpoints), the controller commits `σ = σ_min` after printing a
warning and raises no exception, regardless of the input stream and of
the Brent oracle.  (When both are positive it instead prompts the user
to reinitialise `σ_max` and commits a Brent root of the new bracket.) -/
theorem runESSLoop_bothNegative_commits_sigmaMin (f : ℚ → ℚ)
    (brent : ℚ → ℚ → ℚ) (sMin sMax : ℚ) (inputs : List ℚ)
    (hmin : f sMin < 0) (hmax : f sMax < 0) :
    runESSLoopNoProposal f brent sMin sMax inputs =
      Except.ok (sMin, sMin, true) := by
  have hmax2 : ¬ f sMax > 0 := not_lt.mpr hmax.le
  cases inputs with
  | nil => simp [runESSLoopNoProposal, reinitLoop, hmax2, hmin]
  | cons v rest => simp [runESSLoopNoProposal, reinitLoop, hmax2, hmin]

/-- Witness for the amended C1 at a concrete objective. -/
theorem runESSLoop_bothNegative_commits_sigmaMin_witness :
    ((fun _ : ℚ => (-1 : ℚ)) (1 / 10000) < 0) ∧
    ((fun _ : ℚ => (-1 : ℚ)) 1 < 0) ∧
    runESSLoopNoProposal (fun _ => -1) (fun lo hi => (lo + hi) / 2)
        (1 / 10000) 1 [] = Except.ok (1 / 10000, 1 / 10000, true) :=
  ⟨by norm_num, by norm_num,
   runESSLoop_bothNegative_commits_sigmaMin _ _ _ _ _ (by norm_num)
     (by norm_num)⟩

/-- The sigma fields set by `smc.__init__`: `self.sigma = 1.0e6`,
`self.sigmaMin = 1.0e-4`, `self.sigmaMax = sigma` (the constructor
argument). -/
structure SigmaState where
  sigma : ℚ
  sigmaMin : ℚ
  sigmaMax : ℚ

def smcInit (sigmaArg : ℚ) : SigmaState :=
  { sigma := 1000000, sigmaMin := 1 / 10000, sigmaMax := sigmaArg }

/-- The ESS search of one `calibrate.calibrate` loop iteration: the
driver constructs a fresh `smc(sigma_max, ...)` object inside the loop
body, so every iteration enters `runESSLoop` with `sigmaMax` equal to
the user-supplied `sigma_max` and `sigmaMin = 1e-4`.  `f k` is the ESS
objective induced by iteration `k`'s data, `inputs k` the user
responses typed during that iteration. -/
def calibrateIterESS (f : ℕ → ℚ → ℚ) (brent : ℚ → ℚ → ℚ)
    (inputs : ℕ → List ℚ) (sigma_max : ℚ) (k : ℕ) :
    Except String (ℚ × ℚ × Bool) :=
  let st := smcInit sigma_max
  runESSLoopNoProposal (f k) brent st.sigmaMin st.sigmaMax (inputs k)

/-- Counterexample to C6: with an objective negative at both endpoints,
iteration 0 commits `σ* = σ_min = 1e-4`; yet iteration 1 — run on a
freshly constructed `smc(sigma_max, ...)` — again starts its search
under `σ_max = 1 ≠ σ*`: the committed `σ*` of iteration k does not
become the `σ_max` bound of iteration k+1. -/
theorem calibrate_sigmaMax_not_carried :
    calibrateIterESS (fun _ _ => -1) (fun lo hi => (lo + hi) / 2) (fun _ => [])
        1 0 = Except.ok (1 / 10000, 1 / 10000, true) ∧
    (smcInit 1).sigmaMax = 1 ∧ ((1 : ℚ) / 10000 ≠ 1) := by
  refine ⟨?_, rfl, by norm_num⟩
  norm_num [calibrateIterESS, smcInit, runESSLoopNoProposal, reinitLoop]

/-- C6 amended: within one invocation, `runESSLoop` does end with
`self.sigmaMax` equal to the committed `sigma` (the §4.6 commit rule);
but the driver starts every iteration from a freshly constructed `smc`,
so the bound in force at the start of each iteration is the constant
user-supplied `sigma_max` — the committed `σ*` is not carried over
(and, via the interactive reinitialisation, `σ*` can even exceed the
bound in force when the invocation began). -/
theorem runESSLoop_commit_rule (f : ℚ → ℚ) (brent : ℚ → ℚ → ℚ)
    (sMin sMax σ σmax : ℚ) (warned : Bool) (inputs : List ℚ)
    (h : runESSLoopNoProposal f brent sMin sMax inputs =
      Except.ok (σ, σmax, warned)) :
    σmax = σ ∧ ∀ sm : ℚ, ∀ k : ℕ, (smcInit sm).sigmaMax = sm := by
  refine ⟨?_, fun sm _ => rfl⟩
  unfold runESSLoopNoProposal at h
  cases hr : reinitLoop f sMax inputs with
  | none =>
      rw [hr] at h
      exact absurd h (by simp)
  | some sMax2 =>
      rw [hr] at h
      dsimp only at h
      by_cases h1 : f sMin < 0
      · rw [if_pos h1] at h
        simp only [Except.ok.injEq, Prod.mk.injEq] at h
        exact h.2.1.symm.trans h.1
      · rw [if_neg h1] at h
        by_cases h2 : f sMax2 > 0
        · rw [if_pos h2] at h
          exact absurd h (by simp)
        · rw [if_neg h2] at h
          simp only [Except.ok.injEq, Prod.mk.injEq] at h
          exact h.2.1.symm.trans h.1

/-- Witness for the amended C6 at a concrete run. -/
theorem runESSLoop_commit_rule_witness :
    runESSLoopNoProposal (fun _ => -1) (fun lo hi => (lo + hi) / 2)
        (1 / 10000) 1 [] = Except.ok (1 / 10000, 1 / 10000, true) ∧
    ((1 : ℚ) / 10000 = 1 / 10000 ∧
      ∀ sm : ℚ, ∀ k : ℕ, (smcInit sm).sigmaMax = sm) := by
  have h : runESSLoopNoProposal (fun _ => -1) (fun lo hi => (lo + hi) / 2)
      (1 / 10000) 1 [] = Except.ok (1 / 10000, 1 / 10000, true) := by
    norm_num [runESSLoopNoProposal, reinitLoop]
  exact ⟨h, runESSLoop_commit_rule _ _ _ _ _ _ _ _ h⟩

/-! ## `subRun` as a state transformer (claim C7) -/

/-- The mutable `smc` attributes a `subRun` call touches, next to the
inputs it reads: `self.sigma` and the result arrays (`likelihood`,
`posterior` of shape `N × T`; `ips`, `covs` of shape `P × T`), plus the
sample matrix `X = self.smcSamples[-1]` (`N × P`) and `numParams`,
which `recursiveBayesian` reads to build `ips` and `covs`. -/
structure SMCState where
  inp : SMCInput
  X : ℕ → ℕ → ℚ
  numParams : ℕ
  sigma : ℚ
  likelihood : ℕ → ℕ → ℚ
  posterior : ℕ → ℕ → ℚ
  ips : ℕ → ℕ → ℚ
  covs : ℕ → ℕ → ℚ

/-- Model of `ips[p] = smcSamples[:, p] · posterior` at one step. -/
def ipsCol (inp : SMCInput) (X : ℕ → ℕ → ℚ) (post : ℕ → ℚ) (p : ℕ) : ℚ :=
  ∑ i ∈ Finset.range inp.N, X i p * post i

/-- Model of `covs[p] = sqrt(((smcSamples[:, p] - ips[p])**2) · posterior) /
ips[p]`, with `np.sqrt` abstracted as `sqrtF`. -/
def covsCol (sqrtF : ℚ → ℚ) (inp : SMCInput) (X : ℕ → ℕ → ℚ)
    (post : ℕ → ℚ) (p : ℕ) : ℚ :=
  sqrtF (∑ i ∈ Finset.range inp.N, (X i p - ipsCol inp X post p) ^ 2 * post i) /
    ipsCol inp X post p

/-- Embedding of `smc.subRun(sigma)` as a state transformer: it sets
`self.sigma = sigma`, recomputes columns `t = 0 .. T-1` of
`self.likelihood`, `self.posterior`, `self.ips` and `self.covs` through
`recursiveBayesian`, and returns
`self.ess - self.getEffectiveSampleSize()[-1]`. -/
def subRunState (expF sqrtF : ℚ → ℚ) (s : SMCState) (sigma : ℚ) :
    SMCState × ℚ :=
  let lik := fun t => getLikelihood expF s.inp sigma t
  let post := fun t => posteriorCol expF s.inp sigma t
  ({ s with
      sigma := sigma
      likelihood := fun i t => if t < s.inp.T then lik t i else s.likelihood i t
      posterior := fun i t => if t < s.inp.T then post t i else s.posterior i t
      ips := fun p t =>
        if t < s.inp.T then ipsCol s.inp s.X (post t) p else s.ips p t
      covs := fun p t =>
        if t < s.inp.T then covsCol sqrtF s.inp s.X (post t) p else s.covs p t },
   s.inp.essTarget - essOf s.inp.N (post (s.inp.T - 1)))

/-- A concrete pre-state for the C7 counterexample. -/
def stateBefore : SMCState :=
  { inp := witnessInput, X := fun _ _ => 1, numParams := 1, sigma := 5
    likelihood := fun _ _ => 0, posterior := fun _ _ => 0
    ips := fun _ _ => 0, covs := fun _ _ => 0 }

/-- Counterexample to C7: evaluating `subRun(3)` does not leave the
state outside the return value unchanged — it overwrites `self.sigma`
(and the result arrays): afterwards `self.sigma = 3`, before it was 5. -/
theorem subRun_mutates_state :
    (subRunState (fun _ => 1) (fun x => x) stateBefore 3).1.sigma = 3 ∧
    stateBefore.sigma = 5 ∧ (3 : ℚ) ≠ 5 :=
  ⟨rfl, rfl, by norm_num⟩

/-- C7 amended: a `subRun` evaluation is deterministic in
`(σ, X_k, S_k, Y, q)` — the returned value, the new `self.sigma`, and
every in-range entry of the recomputed arrays depend only on those
arguments and not on any prior mutable state — but it does not leave
the state unchanged: `self.sigma` and the in-range columns of the
result arrays are overwritten. -/
theorem subRun_deterministic (expF sqrtF : ℚ → ℚ) (s1 s2 : SMCState)
    (sigma : ℚ) (hinp : s1.inp = s2.inp) (hX : s1.X = s2.X) :
    (subRunState expF sqrtF s1 sigma).2 = (subRunState expF sqrtF s2 sigma).2 ∧
    (subRunState expF sqrtF s1 sigma).1.sigma = sigma ∧
    (subRunState expF sqrtF s2 sigma).1.sigma = sigma ∧
    (∀ i t, t < s1.inp.T →
      (subRunState expF sqrtF s1 sigma).1.posterior i t =
        (subRunState expF sqrtF s2 sigma).1.posterior i t) ∧
    (∀ i t, t < s1.inp.T →
      (subRunState expF sqrtF s1 sigma).1.likelihood i t =
        (subRunState expF sqrtF s2 sigma).1.likelihood i t) := by
  obtain ⟨inp1, X1, P1, sg1, L1, Po1, I1, V1⟩ := s1
  obtain ⟨inp2, X2, P2, sg2, L2, Po2, I2, V2⟩ := s2
  cases hinp
  cases hX
  refine ⟨rfl, rfl, rfl, fun i t ht => ?_, fun i t ht => ?_⟩ <;>
    simp [subRunState, ht]

/-- Witness for the amended C7 at a concrete state. -/
theorem subRun_deterministic_witness :
    stateBefore.inp = stateBefore.inp ∧ stateBefore.X = stateBefore.X ∧
    ((subRunState (fun _ => 1) (fun x => x) stateBefore 3).2 =
        (subRunState (fun _ => 1) (fun x => x) stateBefore 3).2 ∧
      (subRunState (fun _ => 1) (fun x => x) stateBefore 3).1.sigma = 3 ∧
      (subRunState (fun _ => 1) (fun x => x) stateBefore 3).1.sigma = 3 ∧
      (∀ i t, t < stateBefore.inp.T →
        (subRunState (fun _ => 1) (fun x => x) stateBefore 3).1.posterior i t =
          (subRunState (fun _ => 1) (fun x => x) stateBefore 3).1.posterior i t) ∧
      (∀ i t, t < stateBefore.inp.T →
        (subRunState (fun _ => 1) (fun x => x) stateBefore 3).1.likelihood i t =
          (subRunState (fun _ => 1) (fun x => x) stateBefore 3).1.likelihood i t)) :=
  ⟨rfl, rfl,
   subRun_deterministic (fun _ => 1) (fun x => x) stateBefore stateBefore 3
     rfl rfl⟩

/-! ## Driver iteration effects (claim C8) -/

/-- Observable filesystem effects of one `calibrate.calibrate` loop
iteration. -/
structure IterEffects where
  ranSimulations : Bool
  ranAnalysis : Bool
  wroteScratchTable : Bool
  overwroteNextTable : Bool
  deriving DecidableEq

/-- One iteration of the loop in `calibrate.calibrate`, at the
filesystem granularity of the claim.  `simData`: whether
`Sim_k/data_0_*.txt` files exist; `tableNext`: whether
`smc_table{k+1}.txt` exists.  If the simulation files are absent, the
iteration deletes and repopulates `Sim_k` (`ranSimulations`); if the
next table is absent or `analysis` is set, the SMC scoring and
resampling phase runs (`ranAnalysis`), writing a fresh `smcTable0.txt`
in the working directory (`wroteScratchTable`); that scratch table is
moved onto `smc_table{k+1}.txt` only when the latter did not already
exist (`overwroteNextTable`) — otherwise the driver prints
"... already exists" and leaves the old table in place. -/
def calibrateIter (analysis simData tableNext : Bool) : IterEffects :=
  let runSims := !simData
  let runAna := !tableNext || analysis
  { ranSimulations := runSims
    ranAnalysis := runAna
    wroteScratchTable := runAna
    overwroteNextTable := runAna && !tableNext }

/-- Counterexample to C8: with `analysis = true`, `S_k` complete and
`X_{k+1}` already on disk, the iteration re-runs scoring/resampling and
leaves `S_k` alone — but it does not overwrite `X_{k+1}`. -/
theorem calibrate_analysis_no_overwrite :
    (calibrateIter true true true).ranAnalysis = true ∧
    (calibrateIter true true true).ranSimulations = false ∧
    (calibrateIter true true true).overwroteNextTable = false :=
  ⟨rfl, rfl, rfl⟩

/-- C8 amended: when `S_k` and `X_{k+1}` are both present, no
simulation is re-run (so `S_k` is untouched) and the existing
`X_{k+1}` is never overwritten, whatever `analysis` is; with
`analysis = true` the scoring/resampling phase still runs, its freshly
resampled table ending up in the scratch file `smcTable0.txt` only. -/
theorem calibrate_existing_table_never_overwritten (analysis : Bool) :
    calibrateIter analysis true true =
      { ranSimulations := false, ranAnalysis := analysis,
        wroteScratchTable := analysis, overwroteNextTable := false } := by
  cases analysis <;> rfl

end GrainLearning
